import Mathlib

/-!
Shallow embedding of `src/scripts/tools/enhance_npc_data.py` (the NPC data
enhancement engine): manager tier selection, tactical style sampling,
formation selection, tactics-vector variation and the per-team orchestration
`enhance_team`.  Python floats are modelled by `ℚ` (all constants in the
source are short decimals), Python ints by `ℤ`/`ℕ`, dicts by association
lists, and fallible operations (`%` by zero, out-of-range list indexing)
by `Option`.
-/

namespace EnhanceNpc

/-- Values stored in a team record: numbers, strings, or a tactics dict. -/
inductive Value where
  | num : ℚ → Value
  | str : String → Value
  | tac : List (String × ℚ) → Value
deriving DecidableEq, Repr

/-- A team record: a Python dict modelled as an insertion-ordered
association list with unique keys. -/
abbrev Team := List (String × Value)

/-- A manager record: only its optional integer id field matters
(`manager.get ("id", 1)` in the source). -/
abbrev Manager := Option ℤ

/-- `manager.get ("id", 1)`. -/
def getId (m : Manager) : ℤ := m.getD 1

/-- `d[k] = v` on a Python dict: update in place if the key exists,
append otherwise. -/
def dictSet (d : Team) (k : String) (v : Value) : Team :=
  if (d.lookup k).isSome then
    d.map (fun p => if p.1 = k then (k, v) else p)
  else d ++ [(k, v)]

/-- `key in team`. -/
def hasKey (team : Team) (k : String) : Bool := (team.lookup k).isSome

/-- TACTICAL_PRESETS from the source, as a total function with the
`.get (style, TACTICAL_PRESETS ["Balanced"])` default built in. -/
def TACTICAL_PRESETS (style : String) : List (String × ℚ) :=
  if style = "Attacking" then
    [("attacking_intensity", 0.8), ("defensive_line_height", 0.7),
     ("width", 0.75), ("pressing_trigger", 0.7), ("tempo", 0.8),
     ("directness", 0.6)]
  else if style = "Defensive" then
    [("attacking_intensity", 0.3), ("defensive_line_height", 0.3),
     ("width", 0.5), ("pressing_trigger", 0.3), ("tempo", 0.4),
     ("directness", 0.4)]
  else if style = "Possession" then
    [("attacking_intensity", 0.5), ("defensive_line_height", 0.6),
     ("width", 0.7), ("pressing_trigger", 0.6), ("tempo", 0.3),
     ("directness", 0.3)]
  else if style = "Counter" then
    [("attacking_intensity", 0.7), ("defensive_line_height", 0.35),
     ("width", 0.5), ("pressing_trigger", 0.4), ("tempo", 0.9),
     ("directness", 0.85)]
  else if style = "Pressing" then
    [("attacking_intensity", 0.7), ("defensive_line_height", 0.75),
     ("width", 0.65), ("pressing_trigger", 0.9), ("tempo", 0.7),
     ("directness", 0.6)]
  else
    [("attacking_intensity", 0.5), ("defensive_line_height", 0.5),
     ("width", 0.6), ("pressing_trigger", 0.5), ("tempo", 0.5),
     ("directness", 0.5)]

/-- STYLE_FORMATIONS from the source, with the `.get (style, ["T442"])`
default built in. -/
def STYLE_FORMATIONS (style : String) : List String :=
  if style = "Attacking" then ["T433", "T4231", "T352"]
  else if style = "Defensive" then ["T541", "T532", "T4141"]
  else if style = "Balanced" then ["T442", "T4231", "T433"]
  else if style = "Possession" then ["T433", "T4231", "T4312"]
  else if style = "Counter" then ["T442", "T4141", "T352"]
  else if style = "Pressing" then ["T4231", "T433", "T442"]
  else ["T442"]

/-- The tier chosen by the threshold chain in `select_manager_for_ca`. -/
def tier_of (avg_ca : ℚ) : ℕ :=
  if avg_ca ≥ 140 then 4
  else if avg_ca ≥ 120 then 3
  else if avg_ca ≥ 100 then 2
  else if avg_ca ≥ 80 then 1
  else 0

/-- `tier_size = max (1, manager_count // 5)`. -/
def tier_size_of (n : ℕ) : ℕ := max 1 (n / 5)

/-- `tier_start = tier * tier_size`. -/
def tier_start_of (avg_ca : ℚ) (n : ℕ) : ℕ := tier_of avg_ca * tier_size_of n

/-- `tier_end = min (tier_start + tier_size, manager_count)`. -/
def tier_end_of (avg_ca : ℚ) (n : ℕ) : ℕ :=
  min (tier_start_of avg_ca n + tier_size_of n) n

/-- The in-slice position `tier_start + (index % (tier_end - tier_start))`
in ℕ arithmetic (meaningful when the slice is non-empty). -/
def slice_pos (avg_ca : ℚ) (n : ℕ) (index : ℕ) : ℕ :=
  tier_start_of avg_ca n + index % (tier_end_of avg_ca n - tier_start_of avg_ca n)

/-- `select_manager_for_ca` from the source.  Python `%` is floored mod
(`Int.fmod`); `% 0` raises ZeroDivisionError and an index outside the list
raises IndexError, both modelled as `none`. -/
def select_manager_for_ca (avg_ca : ℚ) (managers : List Manager) (index : ℕ) :
    Option ℤ :=
  if managers.isEmpty then some 1
  else
    let manager_count := managers.length
    let d : ℤ := (tier_end_of avg_ca manager_count : ℤ) -
      (tier_start_of avg_ca manager_count : ℤ)
    if d = 0 then none
    else
      let manager_index : ℤ :=
        (tier_start_of avg_ca manager_count : ℤ) + Int.fmod (index : ℤ) d
      if 0 ≤ manager_index ∧ manager_index < (manager_count : ℤ) then
        some (getId (managers.getD manager_index.toNat none))
      else none

/-- `list (TACTICAL_PRESETS.keys ())`: the canonical style order. -/
def styles : List String :=
  ["Attacking", "Defensive", "Balanced", "Possession", "Counter", "Pressing"]

/-- The CA-banded weight table of `determine_tactical_style`. -/
def weights_for (avg_ca : ℚ) : List ℚ :=
  if avg_ca ≥ 140 then [0.3, 0.05, 0.2, 0.25, 0.1, 0.1]
  else if avg_ca ≥ 120 then [0.25, 0.1, 0.25, 0.2, 0.1, 0.1]
  else if avg_ca ≥ 100 then [0.15, 0.15, 0.35, 0.15, 0.1, 0.1]
  else if avg_ca ≥ 80 then [0.1, 0.2, 0.35, 0.1, 0.15, 0.1]
  else [0.05, 0.35, 0.35, 0.05, 0.15, 0.05]

/-- `rand_value = ((index * 7919) % 10000) / 10000.0`. -/
def rand_of (index : ℕ) : ℚ := (((index * 7919) % 10000 : ℕ) : ℚ) / 10000

/-- The accumulation loop of `determine_tactical_style`: walk the styles
and weights in step, keeping the running cumulative sum, and return the
first style whose cumulative weight reaches `rand`; `Balanced` if the
loop falls through. -/
def pickStyle : List String → List ℚ → ℚ → ℚ → String
  | s :: ss, w :: ws, cumulative, rand =>
      if rand ≤ cumulative + w then s else pickStyle ss ws (cumulative + w) rand
  | _, _, _, _ => "Balanced"

/-- `determine_tactical_style` from the source. -/
def determine_tactical_style (avg_ca : ℚ) (index : ℕ) : String :=
  pickStyle styles (weights_for avg_ca) 0 (rand_of index)

/-- `variation = ((index * 31) % 20 - 10) / 100.0`. -/
def delta_of (index : ℕ) : ℚ := ((((index * 31) % 20 : ℕ) : ℚ) - 10) / 100

/-- `add_variation` from the source: the same delta added to every
parameter, clamped into [0, 1]. -/
def add_variation (base_tactics : List (String × ℚ)) (index : ℕ) :
    List (String × ℚ) :=
  base_tactics.map (fun kv => (kv.1, max 0 (min 1 (kv.2 + delta_of index))))

/-- `formations [index % len (formations)]` (the default is never used:
every style list is non-empty). -/
def formation_for (style : String) (index : ℕ) : String :=
  (STYLE_FORMATIONS style).getD (index % (STYLE_FORMATIONS style).length) "T442"

/-- `float (team.get ("avg_ca", 50.0))`: `none` when the stored value is
not a number (the `float` call raises). -/
def avg_of (team : Team) : Option ℚ :=
  match team.lookup "avg_ca" with
  | none => some 50
  | some (Value.num q) => some q
  | some _ => none

/-- The body of `enhance_team` after the `avg_ca` conversion.  A raised
ZeroDivisionError/IndexError inside `select_manager_for_ca` propagates
(`Option.map`); every other step is pure. -/
def enhance_core (avg_ca : ℚ) (team : Team) (managers : List Manager)
    (index : ℕ) : Option Team :=
  if hasKey team "manager_id" && hasKey team "tactics" && hasKey team "formation" then
    some team
  else
    (if hasKey team "manager_id" then some team
     else (select_manager_for_ca avg_ca managers index).map
       (fun (mid : ℤ) => dictSet team "manager_id" (Value.num (mid : ℚ)))).map
      (fun e1 =>
        let style := determine_tactical_style avg_ca index
        let e2 := if hasKey team "formation" then e1
          else dictSet e1 "formation" (Value.str (formation_for style index))
        let e3 := if hasKey team "tactics" then e2
          else dictSet e2 "tactics"
            (Value.tac (add_variation (TACTICAL_PRESETS style) index))
        dictSet e3 "tactical_style" (Value.str style))

/-- `enhance_team` from the source: convert `avg_ca` first (this runs even
for fully enhanced records), then the enhancement body. -/
def enhance_team (team : Team) (managers : List Manager) (index : ℕ) :
    Option Team :=
  match avg_of team with
  | none => none
  | some q => enhance_core q team managers index

/-- Modelled from the spec wording of the style sampler (section 4.2): walk
the six styles in canonical order and return the first whose cumulative
weight (a prefix sum of the band's weight table) is ≥ the derived fraction,
falling back to Balanced. -/
def selectStyle_spec (avg_ca : ℚ) (index : ℕ) : String :=
  if rand_of index ≤ ((weights_for avg_ca).take 1).sum then styles.getD 0 "Balanced"
  else if rand_of index ≤ ((weights_for avg_ca).take 2).sum then styles.getD 1 "Balanced"
  else if rand_of index ≤ ((weights_for avg_ca).take 3).sum then styles.getD 2 "Balanced"
  else if rand_of index ≤ ((weights_for avg_ca).take 4).sum then styles.getD 3 "Balanced"
  else if rand_of index ≤ ((weights_for avg_ca).take 5).sum then styles.getD 4 "Balanced"
  else if rand_of index ≤ ((weights_for avg_ca).take 6).sum then styles.getD 5 "Balanced"
  else "Balanced"

/-- A pool of 20 managers with ids 1..20 (the spec's worked example). -/
def pool20 : List Manager := (List.range 20).map (fun k => some ((k : ℤ) + 1))

/-- A pool of 4 managers with ids 1..4. -/
def pool4 : List Manager := [some 1, some 2, some 3, some 4]

/-- A record already carrying all three enhancement fields but no
`tactical_style` tag. -/
def teamFull : Team :=
  [("manager_id", Value.num 2), ("formation", Value.str "T442"),
   ("tactics", Value.tac [])]

/-- A record whose only key is a pre-existing `tactical_style` tag. -/
def teamFoo : Team := [("tactical_style", Value.str "Foo")]

/-- A record arriving with a pre-existing formation code that is not a
candidate of any style. -/
def teamFOO : Team := [("formation", Value.str "FOO")]

/-- A minimal record with no enhancement fields and no `avg_ca`. -/
def teamW : Team := [("name", Value.str "A")]

/-- The enhanced form of `teamW` under an empty pool at index 0, written as
the chain of dict updates `enhance_team` performs. -/
def uW : Team :=
  dictSet
    (dictSet
      (dictSet (dictSet teamW "manager_id" (Value.num ((1 : ℤ) : ℚ)))
        "formation" (Value.str (formation_for (determine_tactical_style 50 0) 0)))
      "tactics"
      (Value.tac (add_variation (TACTICAL_PRESETS (determine_tactical_style 50 0)) 0)))
    "tactical_style" (Value.str (determine_tactical_style 50 0))

lemma tier_of_le_four (a : ℚ) : tier_of a ≤ 4 := by
  unfold tier_of; split_ifs <;> norm_num

lemma tier_end_le (a : ℚ) (n : ℕ) : tier_end_of a n ≤ n := min_le_right _ _

lemma tier_size_eq (n : ℕ) (h5 : 5 ≤ n) : tier_size_of n = n / 5 := by
  unfold tier_size_of
  exact max_eq_right (by omega)

lemma tier_end_eq (a : ℚ) (n : ℕ) (h5 : 5 ≤ n) :
    tier_end_of a n = tier_start_of a n + tier_size_of n := by
  have h4 := tier_of_le_four a
  have hmul : tier_of a * tier_size_of n ≤ 4 * tier_size_of n :=
    Nat.mul_le_mul_right _ h4
  unfold tier_end_of tier_start_of
  refine min_eq_left ?_
  rw [tier_size_eq n h5] at *
  omega

lemma select_manager_eq (avg_ca : ℚ) (managers : List Manager) (index : ℕ)
    (hne : managers ≠ [])
    (h : tier_start_of avg_ca managers.length < tier_end_of avg_ca managers.length) :
    select_manager_for_ca avg_ca managers index =
      some (getId (managers.getD (slice_pos avg_ca managers.length index) none)) := by
  have hemp : managers.isEmpty = false := by simp [List.isEmpty_iff, hne]
  have hen : tier_end_of avg_ca managers.length ≤ managers.length := tier_end_le _ _
  have hlt : 0 < tier_end_of avg_ca managers.length -
      tier_start_of avg_ca managers.length := by omega
  have hmod : index % (tier_end_of avg_ca managers.length -
      tier_start_of avg_ca managers.length) <
      tier_end_of avg_ca managers.length -
      tier_start_of avg_ca managers.length := Nat.mod_lt _ hlt
  have hsub : ((tier_end_of avg_ca managers.length : ℤ) -
      (tier_start_of avg_ca managers.length : ℤ)) =
      ((tier_end_of avg_ca managers.length -
        tier_start_of avg_ca managers.length : ℕ) : ℤ) := by omega
  have key : (tier_start_of avg_ca managers.length : ℤ) +
      Int.fmod (index : ℤ) ((tier_end_of avg_ca managers.length : ℤ) -
        (tier_start_of avg_ca managers.length : ℤ)) =
      ((slice_pos avg_ca managers.length index : ℕ) : ℤ) := by
    rw [hsub, Int.fmod_eq_emod _ (Int.natCast_nonneg _)]
    unfold slice_pos
    push_cast
    ring
  have hsp : slice_pos avg_ca managers.length index < managers.length := by
    unfold slice_pos; omega
  simp only [select_manager_for_ca, hemp, Bool.false_eq_true, if_false]
  rw [if_neg (by omega : ¬ ((tier_end_of avg_ca managers.length : ℤ) -
    (tier_start_of avg_ca managers.length : ℤ)) = 0)]
  rw [key]
  rw [if_pos ⟨Int.natCast_nonneg _, by exact_mod_cast hsp⟩]
  simp

lemma lookup_cons_self (k : String) (v : Value) (t : Team) :
    List.lookup k ((k, v) :: t) = some v := by
  simp [List.lookup_cons]

lemma lookup_cons_ne (k a : String) (h : k ≠ a) (v : Value) (t : Team) :
    List.lookup k ((a, v) :: t) = List.lookup k t := by
  simp [List.lookup_cons, beq_false_of_ne h]

lemma lookup_map_set (d : Team) (k : String) (v : Value)
    (h : (d.lookup k).isSome) :
    (d.map (fun p => if p.1 = k then (k, v) else p)).lookup k = some v := by
  induction d with
  | nil => simp at h
  | cons p t ih =>
    obtain ⟨a, w⟩ := p
    by_cases hak : a = k
    · subst hak
      simp only [List.map_cons, if_pos rfl]
      exact lookup_cons_self a v _
    · have hk : k ≠ a := fun hh => hak hh.symm
      simp only [List.map_cons]
      rw [if_neg hak]
      rw [lookup_cons_ne k a hk]
      apply ih
      rwa [lookup_cons_ne k a hk] at h

lemma lookup_map_set_ne (d : Team) (k k' : String) (v : Value) (h : k' ≠ k) :
    (d.map (fun p => if p.1 = k then (k, v) else p)).lookup k' = d.lookup k' := by
  induction d with
  | nil => simp
  | cons p t ih =>
    obtain ⟨a, w⟩ := p
    by_cases hak : a = k
    · subst hak
      simp only [List.map_cons, ite_true, eq_self_iff_true]
      rw [lookup_cons_ne k' a h, lookup_cons_ne k' a h]
      exact ih
    · simp only [List.map_cons]
      rw [if_neg hak]
      by_cases hka : k' = a
      · subst hka
        rw [lookup_cons_self, lookup_cons_self]
      · rw [lookup_cons_ne k' a hka, lookup_cons_ne k' a hka]
        exact ih

lemma lookup_append_single_self (d : Team) (k : String) (v : Value)
    (h : d.lookup k = none) :
    (d ++ [(k, v)]).lookup k = some v := by
  induction d with
  | nil => simp [lookup_cons_self]
  | cons p t ih =>
    obtain ⟨a, w⟩ := p
    by_cases hka : k = a
    · subst hka
      rw [lookup_cons_self] at h
      exact absurd h (by simp)
    · rw [List.cons_append, lookup_cons_ne k a hka]
      apply ih
      rwa [lookup_cons_ne k a hka] at h

lemma lookup_append_single_ne (d : Team) (k k' : String) (v : Value)
    (h : k' ≠ k) :
    (d ++ [(k, v)]).lookup k' = d.lookup k' := by
  induction d with
  | nil => simp [lookup_cons_ne k' k h v []]
  | cons p t ih =>
    obtain ⟨a, w⟩ := p
    by_cases hka : k' = a
    · subst hka
      rw [List.cons_append, lookup_cons_self, lookup_cons_self]
    · rw [List.cons_append, lookup_cons_ne k' a hka, lookup_cons_ne k' a hka]
      exact ih

lemma lookup_dictSet_self (d : Team) (k : String) (v : Value) :
    (dictSet d k v).lookup k = some v := by
  unfold dictSet
  split_ifs with h
  · exact lookup_map_set d k v h
  · refine lookup_append_single_self d k v ?_
    cases hd : d.lookup k with
    | none => rfl
    | some w => rw [hd] at h; simp at h

lemma lookup_dictSet_ne (d : Team) (k k' : String) (v : Value) (h : k' ≠ k) :
    (dictSet d k v).lookup k' = d.lookup k' := by
  unfold dictSet
  split_ifs with hs
  · exact lookup_map_set_ne d k k' v h
  · exact lookup_append_single_ne d k k' v h

theorem weights_sum_one : ∀ avg_ca : ℚ, (weights_for avg_ca).sum = 1 := by
  intro a
  unfold weights_for
  split_ifs <;> norm_num

/-- C9: each of the five avg_ca-band weight tables assigns six weights
summing exactly to 1 in exact rational arithmetic. -/
theorem c9_band_weights_sum_to_one :
    (∀ avg_ca : ℚ, (weights_for avg_ca).sum = 1) ∧
    (weights_for 150).sum = 1 ∧ (weights_for 130).sum = 1 ∧
    (weights_for 110).sum = 1 ∧ (weights_for 90).sum = 1 ∧
    (weights_for 50).sum = 1 :=
  ⟨weights_sum_one, weights_sum_one 150, weights_sum_one 130,
   weights_sum_one 110, weights_sum_one 90, weights_sum_one 50⟩

/-- C6: `add_variation` adds one identical delta ((index*31) mod 20 − 10)/100,
a value in [−0.10, +0.09], to every parameter and clamps into [0, 1], so
every parameter of the result lies in [0, 1]. -/
theorem c6_add_variation_bounds :
    ∀ (base_tactics : List (String × ℚ)) (index : ℕ),
      (-(10 : ℚ) / 100 ≤ delta_of index ∧ delta_of index ≤ 9 / 100) ∧
      add_variation base_tactics index =
        base_tactics.map (fun kv => (kv.1, max 0 (min 1 (kv.2 + delta_of index)))) ∧
      ∀ kv ∈ add_variation base_tactics index, 0 ≤ kv.2 ∧ kv.2 ≤ 1 := by
  intro base index
  have hx : (index * 31) % 20 < 20 := Nat.mod_lt _ (by norm_num)
  have h1 : ((((index * 31) % 20 : ℕ)) : ℚ) ≤ 19 := by
    exact_mod_cast Nat.lt_succ_iff.mp hx
  have h0 : (0 : ℚ) ≤ ((((index * 31) % 20 : ℕ)) : ℚ) := by positivity
  refine ⟨⟨?_, ?_⟩, rfl, ?_⟩
  · unfold delta_of; linarith
  · unfold delta_of; linarith
  · intro kv hkv
    simp only [add_variation, List.mem_map] at hkv
    obtain ⟨a, _, rfl⟩ := hkv
    exact ⟨le_max_left 0 _, max_le (by norm_num) (min_le_left 1 _)⟩

lemma pickStyle_six (s1 s2 s3 s4 s5 s6 : String) (w1 w2 w3 w4 w5 w6 q : ℚ) :
    pickStyle [s1, s2, s3, s4, s5, s6] [w1, w2, w3, w4, w5, w6] 0 q =
      if q ≤ w1 then s1
      else if q ≤ w1 + w2 then s2
      else if q ≤ w1 + w2 + w3 then s3
      else if q ≤ w1 + w2 + w3 + w4 then s4
      else if q ≤ w1 + w2 + w3 + w4 + w5 then s5
      else if q ≤ w1 + w2 + w3 + w4 + w5 + w6 then s6
      else "Balanced" := by
  simp only [pickStyle, zero_add]

set_option maxHeartbeats 1000000 in
/-- C4: `determine_tactical_style` equals the spec's description — fraction
((index*7919) mod 10000)/10000, first style in canonical order whose
cumulative weight reaches the fraction, Balanced as fallback — and on
avg_ca = 60, index = 5 the fraction is 0.9595 and the style is Pressing. -/
theorem c4_style_sampler_matches_spec :
    (∀ (avg_ca : ℚ) (index : ℕ),
        determine_tactical_style avg_ca index = selectStyle_spec avg_ca index) ∧
    rand_of 5 = 9595 / 10000 ∧
    determine_tactical_style 60 5 = "Pressing" := by
  refine ⟨?_, by norm_num [rand_of],
    by norm_num [determine_tactical_style, weights_for, rand_of, pickStyle, styles]⟩
  intro a i
  unfold determine_tactical_style selectStyle_spec weights_for styles
  split_ifs <;>
    (rw [pickStyle_six]; norm_num [List.take] at *;
      split_ifs <;> first | rfl | linarith | (intro hx; linarith))

lemma tier_iffs (a : ℚ) :
    (tier_of a = 4 ↔ 140 ≤ a) ∧ (tier_of a = 3 ↔ 120 ≤ a ∧ a < 140) ∧
    (tier_of a = 2 ↔ 100 ≤ a ∧ a < 120) ∧ (tier_of a = 1 ↔ 80 ≤ a ∧ a < 100) ∧
    (tier_of a = 0 ↔ a < 80) := by
  unfold tier_of
  split_ifs with h1 h2 h3 h4 <;>
    refine ⟨⟨fun hh => ?_, fun hh => ?_⟩, ⟨fun hh => ?_, fun hh => ?_⟩,
      ⟨fun hh => ?_, fun hh => ?_⟩, ⟨fun hh => ?_, fun hh => ?_⟩,
      ⟨fun hh => ?_, fun hh => ?_⟩⟩ <;>
    first
      | rfl
      | linarith
      | (exact ⟨by linarith, by linarith⟩)
      | (exfalso; linarith)
      | (exfalso; linarith [hh.1, hh.2])
      | (norm_num at hh)

/-- C5: for a non-empty pool whose computed tier slice is non-empty,
`select_manager_for_ca` picks tier t by the 140/120/100/80 thresholds and
returns the id of the manager at position tierStart + (index mod
(tierEnd − tierStart)); for avg_ca = 150, index = 0 and a pool of 20
managers with ids 1..20 it returns id 17. -/
theorem c5_select_manager_formula (avg_ca : ℚ) (managers : List Manager)
    (index : ℕ) (hne : managers ≠ [])
    (hslice : tier_start_of avg_ca managers.length <
      tier_end_of avg_ca managers.length) :
    select_manager_for_ca avg_ca managers index =
      some (getId (managers.getD
        (tier_start_of avg_ca managers.length +
          index % (tier_end_of avg_ca managers.length -
            tier_start_of avg_ca managers.length)) none)) ∧
    (tier_of avg_ca = 4 ↔ 140 ≤ avg_ca) ∧
    (tier_of avg_ca = 3 ↔ 120 ≤ avg_ca ∧ avg_ca < 140) ∧
    (tier_of avg_ca = 2 ↔ 100 ≤ avg_ca ∧ avg_ca < 120) ∧
    (tier_of avg_ca = 1 ↔ 80 ≤ avg_ca ∧ avg_ca < 100) ∧
    (tier_of avg_ca = 0 ↔ avg_ca < 80) ∧
    select_manager_for_ca 150 pool20 0 = some 17 := by
  obtain ⟨i4, i3, i2, i1, i0⟩ := tier_iffs avg_ca
  exact ⟨select_manager_eq avg_ca managers index hne hslice, i4, i3, i2, i1, i0,
    by decide⟩

/-- C5 witness: the hypotheses hold and the conclusion follows at
avg_ca = 150, the 20-manager pool, index = 0. -/
theorem c5_select_manager_formula_witness :
    pool20 ≠ [] ∧
    tier_start_of 150 pool20.length < tier_end_of 150 pool20.length ∧
    select_manager_for_ca 150 pool20 0 = some 17 :=
  ⟨by decide, by decide,
    (c5_select_manager_formula 150 pool20 0 (by decide) (by decide)).1.trans
      (by decide)⟩

/-- C7: for a pool of size ≥ 5 the selected position always lies inside the
chosen tier's own slice; with avg_ca ≥ 140 it never lies in the tier-0
slice [0, tierSize), and with avg_ca < 80 it never lies in the tier-4
slice starting at 4*tierSize. -/
theorem c7_tier_monotonic (avg_ca : ℚ) (managers : List Manager) (index : ℕ)
    (h5 : 5 ≤ managers.length) :
    (tier_start_of avg_ca managers.length ≤
        slice_pos avg_ca managers.length index ∧
      slice_pos avg_ca managers.length index <
        tier_end_of avg_ca managers.length) ∧
    select_manager_for_ca avg_ca managers index =
      some (getId (managers.getD (slice_pos avg_ca managers.length index) none)) ∧
    (140 ≤ avg_ca →
      ¬ slice_pos avg_ca managers.length index < tier_size_of managers.length) ∧
    (avg_ca < 80 →
      slice_pos avg_ca managers.length index < 4 * tier_size_of managers.length) := by
  have hne : managers ≠ [] := by
    intro hh; rw [hh] at h5; simp at h5
  have hend := tier_end_eq avg_ca managers.length h5
  have hts1 : 1 ≤ tier_size_of managers.length := le_max_left 1 _
  have hslice : tier_start_of avg_ca managers.length <
      tier_end_of avg_ca managers.length := by omega
  have hd : tier_end_of avg_ca managers.length -
      tier_start_of avg_ca managers.length = tier_size_of managers.length := by
    omega
  have hmod : index % (tier_end_of avg_ca managers.length -
      tier_start_of avg_ca managers.length) < tier_size_of managers.length := by
    rw [hd]; exact Nat.mod_lt _ (by omega)
  refine ⟨⟨Nat.le_add_right _ _, by unfold slice_pos; omega⟩,
    select_manager_eq avg_ca managers index hne hslice,
    fun h140 => ?_, fun h80 => ?_⟩
  · have ht : tier_of avg_ca = 4 := (tier_iffs avg_ca).1.mpr h140
    have hs : tier_start_of avg_ca managers.length =
        4 * tier_size_of managers.length := by
      unfold tier_start_of; rw [ht]
    unfold slice_pos; omega
  · have ht : tier_of avg_ca = 0 := (tier_iffs avg_ca).2.2.2.2.mpr h80
    have hs : tier_start_of avg_ca managers.length = 0 := by
      unfold tier_start_of; rw [ht]; ring
    unfold slice_pos; omega

/-- C7 witness: at avg_ca = 150, the 20-manager pool and index = 0 the
hypothesis holds and the selection lands in the tier-4 slice. -/
theorem c7_tier_monotonic_witness :
    5 ≤ pool20.length ∧
    select_manager_for_ca 150 pool20 0 =
      some (getId (pool20.getD (slice_pos 150 pool20.length 0) none)) :=
  ⟨by decide, (c7_tier_monotonic 150 pool20 0 (by decide)).2.1⟩

/-- C2 counterexample: with a pool of 4 managers and avg_ca = 150 the
tier-4 slice is empty and the code divides by zero (ZeroDivisionError,
modelled as `none`) instead of clamping the slice length. -/
theorem c2_counterexample : select_manager_for_ca 150 pool4 0 = none := by
  decide

/-- C2 (amended): `select_manager_for_ca` returns the default id 1 on an
empty pool and succeeds whenever the computed tier slice is non-empty —
in particular for every pool of size ≥ 5; there is no clamping, so for
pools of size 1–4 a top tier can fail. -/
theorem c2_totality_amended (avg_ca : ℚ) (managers : List Manager) (index : ℕ) :
    (managers = [] → select_manager_for_ca avg_ca managers index = some 1) ∧
    (managers ≠ [] →
      tier_start_of avg_ca managers.length <
        tier_end_of avg_ca managers.length →
      (select_manager_for_ca avg_ca managers index).isSome = true) ∧
    (5 ≤ managers.length →
      (select_manager_for_ca avg_ca managers index).isSome = true) := by
  refine ⟨fun he => ?_, fun hne hs => ?_, fun h5 => ?_⟩
  · subst he; rfl
  · rw [select_manager_eq avg_ca managers index hne hs]; rfl
  · have hne : managers ≠ [] := by
      intro hh; rw [hh] at h5; simp at h5
    have hend := tier_end_eq avg_ca managers.length h5
    have hts1 : 1 ≤ tier_size_of managers.length := le_max_left 1 _
    have hs : tier_start_of avg_ca managers.length <
        tier_end_of avg_ca managers.length := by omega
    rw [select_manager_eq avg_ca managers index hne hs]; rfl

/-- C2 witness: on the 20-manager pool with avg_ca = 150 the amended
totality applies. -/
theorem c2_totality_amended_witness :
    5 ≤ pool20.length ∧ (select_manager_for_ca 150 pool20 0).isSome = true :=
  ⟨by decide, (c2_totality_amended 150 pool20 0).2.2 (by decide)⟩

lemma enhance_core_all (q : ℚ) (team : Team) (managers : List Manager) (index : ℕ)
    (h : (hasKey team "manager_id" && hasKey team "tactics" &&
      hasKey team "formation") = true) :
    enhance_core q team managers index = some team := by
  unfold enhance_core
  rw [if_pos h]

lemma enhance_core_cases (q : ℚ) (team : Team) (managers : List Manager)
    (index : ℕ) (u : Team)
    (hall : (hasKey team "manager_id" && hasKey team "tactics" &&
      hasKey team "formation") = false)
    (hcore : enhance_core q team managers index = some u) :
    ∃ e1 : Team,
      ((hasKey team "manager_id" = true ∧ e1 = team) ∨
        (hasKey team "manager_id" = false ∧
          ∃ mid, select_manager_for_ca q managers index = some mid ∧
            e1 = dictSet team "manager_id" (Value.num (mid : ℚ)))) ∧
      u = dictSet
        (if hasKey team "tactics" then
          (if hasKey team "formation" then e1
           else dictSet e1 "formation"
             (Value.str (formation_for (determine_tactical_style q index) index)))
         else dictSet
           (if hasKey team "formation" then e1
            else dictSet e1 "formation"
              (Value.str (formation_for (determine_tactical_style q index) index)))
           "tactics" (Value.tac (add_variation
             (TACTICAL_PRESETS (determine_tactical_style q index)) index)))
        "tactical_style" (Value.str (determine_tactical_style q index)) := by
  unfold enhance_core at hcore
  rw [if_neg (by simp [hall])] at hcore
  by_cases hm : hasKey team "manager_id" = true
  · rw [if_pos hm, Option.map_some'] at hcore
    exact ⟨team, Or.inl ⟨hm, rfl⟩, (Option.some.inj hcore).symm⟩
  · have hm' : hasKey team "manager_id" = false := by
      cases hmv : hasKey team "manager_id" with
      | false => rfl
      | true => exact absurd hmv hm
    rw [if_neg hm] at hcore
    cases hsel : select_manager_for_ca q managers index with
    | none => rw [hsel] at hcore; simp at hcore
    | some mid =>
      rw [hsel, Option.map_some', Option.map_some'] at hcore
      exact ⟨dictSet team "manager_id" (Value.num (mid : ℚ)),
        Or.inr ⟨hm', mid, rfl, rfl⟩, (Option.some.inj hcore).symm⟩

lemma lookup_ite_dictSet_ne (c : Prop) [Decidable c] (d : Team) (kk k' : String)
    (v : Value) (h : k' ≠ kk) :
    (if c then d else dictSet d kk v).lookup k' = d.lookup k' := by
  split_ifs with hc
  · rfl
  · exact lookup_dictSet_ne d kk k' v h

lemma pickStyle_mem : ∀ (ss : List String) (ws : List ℚ) (c r : ℚ),
    pickStyle ss ws c r ∈ ss ∨ pickStyle ss ws c r = "Balanced" := by
  intro ss
  induction ss with
  | nil => intro ws c r; right; cases ws <;> rfl
  | cons s t ih =>
    intro ws c r
    cases ws with
    | nil => right; rfl
    | cons w ws' =>
      simp only [pickStyle]
      split_ifs with h
      · left; exact List.mem_cons_self s t
      · rcases ih ws' (c + w) r with hm | hb
        · left; exact List.mem_cons_of_mem s hm
        · right; exact hb

lemma style_formations_length (a : ℚ) (i : ℕ) :
    (STYLE_FORMATIONS (determine_tactical_style a i)).length = 3 := by
  rcases pickStyle_mem styles (weights_for a) 0 (rand_of i) with hm | hb
  · have hm' : determine_tactical_style a i ∈ styles := hm
    simp only [styles, List.mem_cons, List.not_mem_nil, or_false] at hm'
    rcases hm' with h | h | h | h | h | h <;> rw [h] <;> rfl
  · have hb' : determine_tactical_style a i = "Balanced" := hb
    rw [hb']
    rfl

lemma formation_for_eq (a : ℚ) (i : ℕ) :
    formation_for (determine_tactical_style a i) i =
      (STYLE_FORMATIONS (determine_tactical_style a i)).getD (i % 3) "T442" := by
  unfold formation_for
  rw [style_formations_length a i]

lemma getD_mem_of_length_three (l : List String) (h3 : l.length = 3) (i : ℕ) :
    l.getD (i % 3) "T442" ∈ l := by
  have hlt : i % 3 < l.length := by
    rw [h3]; exact Nat.mod_lt _ (by norm_num)
  rw [List.getD_eq_getElem l _ hlt]
  exact List.getElem_mem hlt


lemma select_manager50_isSome (managers : List Manager) (index : ℕ) :
    (select_manager_for_ca 50 managers index).isSome = true := by
  by_cases hne : managers = []
  · subst hne; rfl
  · have h0 : tier_of (50 : ℚ) = 0 := rfl
    have hstart : tier_start_of 50 managers.length = 0 := by
      unfold tier_start_of; rw [h0]; ring
    have hts1 : 1 ≤ tier_size_of managers.length := le_max_left 1 _
    have hlen : 1 ≤ managers.length := List.length_pos.mpr hne
    have hend : 1 ≤ tier_end_of 50 managers.length := by
      unfold tier_end_of
      rw [hstart]
      simp only [Nat.zero_add]
      exact le_min hts1 hlen
    have hs : tier_start_of 50 managers.length <
        tier_end_of 50 managers.length := by omega
    rw [select_manager_eq 50 managers index hne hs]
    rfl

lemma enhance_core50_isSome (team : Team) (managers : List Manager) (index : ℕ) :
    (enhance_core 50 team managers index).isSome = true := by
  unfold enhance_core
  split_ifs <;>
    first
      | rfl
      | (rw [Option.isSome_map', Option.isSome_map']
         exact select_manager50_isSome managers index)

/-- C1 (amended): when all three of manager_id, tactics and formation are
present (and avg_ca converts), enhance_team returns the record unchanged and
does not attach tactical_style; the tag is computed and attached exactly
when at least one of the three is missing. -/
theorem c1_pass_through_amended (team : Team) (managers : List Manager)
    (index : ℕ) (q : ℚ) (havg : avg_of team = some q) :
    ((hasKey team "manager_id" && hasKey team "tactics" &&
        hasKey team "formation") = true →
      enhance_team team managers index = some team) ∧
    (∀ u, (hasKey team "manager_id" && hasKey team "tactics" &&
        hasKey team "formation") = false →
      enhance_team team managers index = some u →
      u.lookup "tactical_style" =
        some (Value.str (determine_tactical_style q index))) := by
  constructor
  · intro h
    unfold enhance_team
    rw [havg]
    exact enhance_core_all q team managers index h
  · intro u hall hu
    unfold enhance_team at hu
    rw [havg] at hu
    obtain ⟨e1, -, rfl⟩ := enhance_core_cases q team managers index u hall hu
    exact lookup_dictSet_self _ _ _

/-- C3 (amended): when the input record has no formation key, the output
formation is the candidate at position index mod 3 of the fixed 3-element
list registered for the output record tactical_style. -/
theorem c3_formation_invariant_amended (team : Team) (managers : List Manager)
    (index : ℕ) (q : ℚ) (u : Team)
    (havg : avg_of team = some q)
    (hf : hasKey team "formation" = false)
    (hu : enhance_team team managers index = some u) :
    u.lookup "tactical_style" =
      some (Value.str (determine_tactical_style q index)) ∧
    u.lookup "formation" = some (Value.str
      ((STYLE_FORMATIONS (determine_tactical_style q index)).getD
        (index % 3) "T442")) ∧
    (STYLE_FORMATIONS (determine_tactical_style q index)).length = 3 ∧
    (STYLE_FORMATIONS (determine_tactical_style q index)).getD (index % 3) "T442" ∈
      STYLE_FORMATIONS (determine_tactical_style q index) := by
  have hall : (hasKey team "manager_id" && hasKey team "tactics" &&
      hasKey team "formation") = false := by simp [hf]
  unfold enhance_team at hu
  rw [havg] at hu
  obtain ⟨e1, -, rfl⟩ := enhance_core_cases q team managers index u hall hu
  refine ⟨lookup_dictSet_self _ _ _, ?_, style_formations_length q index,
    getD_mem_of_length_three _ (style_formations_length q index) index⟩
  rw [lookup_dictSet_ne _ _ _ _ (by decide)]
  rw [lookup_ite_dictSet_ne _ _ _ _ _ (by decide)]
  simp only [hf, Bool.false_eq_true, if_false]
  rw [lookup_dictSet_self, formation_for_eq]

/-- C8 (amended): enhance_team never overwrites a present manager_id,
formation or tactics value, and every key other than those three and
tactical_style is carried to the output unchanged; tactical_style itself
may be overwritten. -/
theorem c8_preservation_amended (team : Team) (managers : List Manager)
    (index : ℕ) (u : Team)
    (hu : enhance_team team managers index = some u) :
    (∀ k : String, k ≠ "manager_id" → k ≠ "formation" → k ≠ "tactics" →
      k ≠ "tactical_style" → u.lookup k = team.lookup k) ∧
    (∀ v, team.lookup "manager_id" = some v → u.lookup "manager_id" = some v) ∧
    (∀ v, team.lookup "formation" = some v → u.lookup "formation" = some v) ∧
    (∀ v, team.lookup "tactics" = some v → u.lookup "tactics" = some v) := by
  unfold enhance_team at hu
  cases havg : avg_of team with
  | none => rw [havg] at hu; exact absurd hu (by simp)
  | some q =>
    rw [havg] at hu
    have hcore : enhance_core q team managers index = some u := hu
    cases hb : (hasKey team "manager_id" && hasKey team "tactics" &&
        hasKey team "formation") with
    | true =>
      rw [enhance_core_all q team managers index hb] at hcore
      obtain rfl := Option.some.inj hcore
      exact ⟨fun k _ _ _ _ => rfl, fun v hv => hv, fun v hv => hv,
        fun v hv => hv⟩
    | false =>
      obtain ⟨e1, he1, rfl⟩ := enhance_core_cases q team managers index u hb hcore
      have he1_other : ∀ k : String, k ≠ "manager_id" →
          e1.lookup k = team.lookup k := by
        rcases he1 with ⟨-, rfl⟩ | ⟨-, mid, -, rfl⟩
        · intro k _; rfl
        · intro k hk; exact lookup_dictSet_ne _ _ _ _ hk
      refine ⟨?_, ?_, ?_, ?_⟩
      · intro k hk1 hk2 hk3 hk4
        rw [lookup_dictSet_ne _ _ _ _ hk4]
        rw [lookup_ite_dictSet_ne _ _ _ _ _ hk3]
        rw [lookup_ite_dictSet_ne _ _ _ _ _ hk2]
        exact he1_other k hk1
      · intro v hv
        have hm : hasKey team "manager_id" = true := by
          unfold hasKey; rw [hv]; rfl
        have he1m : e1.lookup "manager_id" = some v := by
          rcases he1 with ⟨-, rfl⟩ | ⟨hmf, -, -, -⟩
          · exact hv
          · rw [hm] at hmf; exact absurd hmf (by simp)
        rw [lookup_dictSet_ne _ _ _ _ (by decide)]
        rw [lookup_ite_dictSet_ne _ _ _ _ _ (by decide)]
        rw [lookup_ite_dictSet_ne _ _ _ _ _ (by decide)]
        exact he1m
      · intro v hv
        have hfm : hasKey team "formation" = true := by
          unfold hasKey; rw [hv]; rfl
        rw [lookup_dictSet_ne _ _ _ _ (by decide)]
        rw [lookup_ite_dictSet_ne _ _ _ _ _ (by decide)]
        rw [if_pos hfm]
        rcases he1 with ⟨-, rfl⟩ | ⟨-, mid, -, rfl⟩
        · exact hv
        · rw [lookup_dictSet_ne _ _ _ _ (by decide)]; exact hv
      · intro v hv
        have htc : hasKey team "tactics" = true := by
          unfold hasKey; rw [hv]; rfl
        rw [lookup_dictSet_ne _ _ _ _ (by decide)]
        rw [if_pos htc]
        rw [lookup_ite_dictSet_ne _ _ _ _ _ (by decide)]
        rcases he1 with ⟨-, rfl⟩ | ⟨-, mid, -, rfl⟩
        · exact hv
        · rw [lookup_dictSet_ne _ _ _ _ (by decide)]; exact hv

/-- C10: a record with no avg_ca key is processed exactly as if it carried
avg_ca = 50: no error is raised, the tier is 0 and the style weights are
the lowest band. -/
theorem c10_missing_avg_ca (team : Team) (managers : List Manager) (index : ℕ)
    (h : team.lookup "avg_ca" = none) :
    enhance_team team managers index = enhance_core 50 team managers index ∧
    (enhance_team team managers index).isSome = true ∧
    tier_of 50 = 0 ∧
    weights_for 50 = [0.05, 0.35, 0.35, 0.05, 0.15, 0.05] := by
  have havg : avg_of team = some 50 := by unfold avg_of; rw [h]
  have he : enhance_team team managers index =
      enhance_core 50 team managers index := by
    unfold enhance_team; rw [havg]
  refine ⟨he, ?_, rfl, rfl⟩
  rw [he]
  exact enhance_core50_isSome team managers index


/-- C1 counterexample: a record already carrying manager_id, formation and
tactics is returned by enhance_team unchanged, with no tactical_style tag
attached — the function returns before the tag line runs. -/
theorem c1_counterexample :
    enhance_team teamFull [] 0 = some teamFull ∧
    teamFull.lookup "tactical_style" = none := ⟨rfl, rfl⟩

/-- C1 witness: the amended pass-through at the concrete fully-enhanced
record. -/
theorem c1_pass_through_amended_witness :
    avg_of teamFull = some 50 ∧
    (hasKey teamFull "manager_id" && hasKey teamFull "tactics" &&
      hasKey teamFull "formation") = true ∧
    enhance_team teamFull [] 0 = some teamFull :=
  ⟨rfl, rfl, (c1_pass_through_amended teamFull [] 0 50 rfl).1 rfl⟩

/-- C3 counterexample: a record arriving with formation "FOO" keeps it, and
"FOO" is not among the three candidates of the attached tactical_style. -/
theorem c3_counterexample :
    (enhance_team teamFOO [some 1] 0).bind (fun u => u.lookup "formation") =
      some (Value.str "FOO") ∧
    (enhance_team teamFOO [some 1] 0).bind (fun u => u.lookup "tactical_style") =
      some (Value.str (determine_tactical_style 50 0)) ∧
    determine_tactical_style 50 0 = "Attacking" ∧
    "FOO" ∉ STYLE_FORMATIONS "Attacking" := by
  refine ⟨rfl, rfl, ?_, by decide⟩
  norm_num [determine_tactical_style, weights_for, rand_of, pickStyle, styles]

/-- C3 witness: the amended invariant at a concrete record without a
formation key. -/
theorem c3_formation_invariant_amended_witness :
    avg_of teamW = some 50 ∧ hasKey teamW "formation" = false ∧
    enhance_team teamW [] 0 = some uW ∧
    uW.lookup "formation" = some (Value.str
      ((STYLE_FORMATIONS (determine_tactical_style 50 0)).getD (0 % 3) "T442")) :=
  ⟨rfl, rfl, rfl,
    (c3_formation_invariant_amended teamW [] 0 50 uW rfl rfl rfl).2.1⟩

/-- C8 counterexample: a pre-existing tactical_style key "Foo" is
overwritten by the recomputed style, so not every non-enhancement key is
carried unchanged. -/
theorem c8_counterexample :
    (enhance_team teamFoo [some 1] 0).bind (fun u => u.lookup "tactical_style") =
      some (Value.str (determine_tactical_style 50 0)) ∧
    determine_tactical_style 50 0 = "Attacking" ∧
    teamFoo.lookup "tactical_style" = some (Value.str "Foo") := by
  refine ⟨rfl, ?_, rfl⟩
  norm_num [determine_tactical_style, weights_for, rand_of, pickStyle, styles]

/-- C8 witness: frame preservation at a concrete record with an unrelated
key. -/
theorem c8_preservation_amended_witness :
    enhance_team teamW [] 0 = some uW ∧
    uW.lookup "name" = teamW.lookup "name" :=
  ⟨rfl, (c8_preservation_amended teamW [] 0 uW rfl).1 "name" (by decide)
    (by decide) (by decide) (by decide)⟩

/-- C10 witness: a concrete record without avg_ca enhances successfully. -/
theorem c10_missing_avg_ca_witness :
    teamW.lookup "avg_ca" = none ∧ (enhance_team teamW [] 0).isSome = true :=
  ⟨rfl, (c10_missing_avg_ca teamW [] 0 rfl).2.1⟩

end EnhanceNpc
